import Mathlib

/-!
Shallow embedding of the CAN bit-timing configuration search of this
repository (src/avr-can.py; the functions get_config and best_error_rate in
src/main.py are line-for-line the same logic, with a Config record that only
drops the cpu_freq field).  Python real arithmetic is modelled exactly over ℚ,
Python integers over ℤ.  The only exception raised anywhere in the translated
code is the ZeroDivisionError of the line clks_pr_bit = cpu_freq / baudrate
when baudrate == 0, so get_config is embedded as an Except value.
-/

/-- Python int(x) applied to a real value: truncation toward zero. -/
def pytrunc (q : ℚ) : ℤ := if q < 0 then ⌈q⌉ else ⌊q⌋

/-- Python x % y on reals: x - y * floor(x / y).  Every use in the source has
y a positive integer (the loop variable Tbit, 8..25). -/
def pymod (x y : ℚ) : ℚ := x - y * ⌊x / y⌋

/-- src/avr-can.py line 5: is_even.  Python % on integers is floored modulus,
which is Int.emod, the % of ℤ in Lean. -/
def is_even (n : ℤ) : Bool := n % 2 == 0

/-- src/avr-can.py lines 20..32: the Config record built by get_config. -/
structure Config where
  cpu_freq : ℤ
  baudrate : ℤ
  prescaler : ℤ
  clks_pr_bit : ℚ
  Tbit : ℤ
  Tsyns : ℤ
  Tprs : ℤ
  Tph1 : ℤ
  Tph2 : ℤ
  Tsjw : ℤ
  error_rate : ℚ
deriving DecidableEq

/-- src/avr-can.py line 104: Tprs = int(Tbit / 2 if is_even(Tbit) else
(Tbit - 1) / 2).  The divisions are Python real divisions followed by int(). -/
def Tprs_of (Tbit : ℤ) : ℤ :=
  if is_even Tbit then pytrunc ((Tbit : ℚ) / 2) else pytrunc (((Tbit : ℚ) - 1) / 2)

/-- src/avr-can.py line 105: Tph1 = int(Tprs / 2 if is_even(Tbit - Tprs - Tsyns)
else (Tprs / 2) + 1), with Tsyns = 1 from line 103. -/
def Tph1_of (Tbit : ℤ) : ℤ :=
  if is_even (Tbit - Tprs_of Tbit - 1) then pytrunc ((Tprs_of Tbit : ℚ) / 2)
  else pytrunc ((Tprs_of Tbit : ℚ) / 2 + 1)

/-- src/avr-can.py line 106: Tph2 = int(Tprs / 2). -/
def Tph2_of (Tbit : ℤ) : ℤ := pytrunc ((Tprs_of Tbit : ℚ) / 2)

/-- src/avr-can.py lines 115..117: min_err_rate is 0.5, overridden to 1.58 when
Tprs == 1 and (Tph1 == 4 and Tph2 == 4 and Tsjw == 4) and baudrate > 125*1000.
The Python float literals 0.5 and 1.58 are written as the rationals 1/2 and
158/100 (0.5 is exact in binary floating point; the 1.58 branch is compared
below only through its guard, never through its value). -/
def min_err_rate (baudrate Tprs Tph1 Tph2 Tsjw : ℤ) : ℚ :=
  if Tprs = 1 ∧ (Tph1 = 4 ∧ Tph2 = 4 ∧ Tsjw = 4) ∧ baudrate > 125 * 1000 then 158 / 100
  else 1 / 2

/-- src/avr-can.py lines 120..121: the Config value appended for a surviving
Tbit: Config(cpu_freq, baudrate, prescaler, clks_pr_bit, Tbit, Tsyns=1, Tprs,
Tph1, Tph2, Tsjw=1, error_rate), with prescaler = int(clks_pr_bit / Tbit) from
line 98 and error_rate = clks_pr_bit % Tbit from line 96. -/
def mkC (baudrate cpu_freq : ℤ) (clks_pr_bit : ℚ) (Tbit : ℤ) : Config :=
  { cpu_freq := cpu_freq
    baudrate := baudrate
    prescaler := pytrunc (clks_pr_bit / (Tbit : ℚ))
    clks_pr_bit := clks_pr_bit
    Tbit := Tbit
    Tsyns := 1
    Tprs := Tprs_of Tbit
    Tph1 := Tph1_of Tbit
    Tph2 := Tph2_of Tbit
    Tsjw := 1
    error_rate := pymod clks_pr_bit (Tbit : ℚ) }

/-- src/avr-can.py lines 95..121: one iteration of the for-loop over Tbit.
Returning none models the two continue statements (line 101: prescaler wider
than the 6-bit BRP register, line 110..113: segment validity gate) and the
failed error-rate test of line 119; the guards appear in source order, with
Tsyns and Tsjw inlined as the constant 1 they are assigned on lines 103 and
107. -/
def tbit_candidate (baudrate cpu_freq : ℤ) (clks_pr_bit : ℚ) (Tbit : ℤ) : Option Config :=
  if pytrunc (clks_pr_bit / (Tbit : ℚ)) > 2 ^ 6 then none
  else if Tbit ≠ 1 + Tprs_of Tbit + Tph1_of Tbit + Tph2_of Tbit ∨
      ¬(1 ≤ Tprs_of Tbit ∧ Tprs_of Tbit ≤ 8) ∨
      ¬(1 ≤ Tph1_of Tbit ∧ Tph1_of Tbit ≤ 8) ∨
      ¬(2 ≤ Tph2_of Tbit ∧ Tph2_of Tbit ≤ Tph1_of Tbit) then none
  else if pymod clks_pr_bit (Tbit : ℚ) <
      min_err_rate baudrate (Tprs_of Tbit) (Tph1_of Tbit) (Tph2_of Tbit) 1 then
    some (mkC baudrate cpu_freq clks_pr_bit Tbit)
  else none

/-- src/avr-can.py line 95: range(8, 25 + 1). -/
def tbit_range : List ℤ := [8, 9, 10, 11, 12, 13, 14, 15, 16, 17, 18, 19, 20, 21, 22, 23, 24, 25]

/-- The one runtime failure of the translated code: the division
cpu_freq / baudrate on src/avr-can.py line 92 raises ZeroDivisionError when
baudrate is 0.  There is no input validation anywhere in the source. -/
inductive PyErr where
  | zeroDivisionError
deriving DecidableEq

/-- src/avr-can.py lines 90..123: get_config.  clks_pr_bit = cpu_freq/baudrate
is Python real division, modelled exactly over ℚ; the accumulation of
valid_configs by the loop is the filterMap of the per-Tbit body over
range(8, 26). -/
def get_config (baudrate cpu_freq : ℤ) : Except PyErr (List Config) :=
  if baudrate = 0 then Except.error PyErr.zeroDivisionError
  else
    Except.ok (tbit_range.filterMap
      (tbit_candidate baudrate cpu_freq ((cpu_freq : ℚ) / (baudrate : ℚ))))

/-- Stable insertion into a list sorted by error_rate: an earlier element is
kept in front of later elements with an equal key. -/
def insertByErr (x : Config) : List Config → List Config
  | [] => [x]
  | y :: ys => if x.error_rate ≤ y.error_rate then x :: y :: ys else y :: insertByErr x ys

/-- Model of Python sorted(confs, key=lambda config: config.error_rate)
(src/avr-can.py line 131).  Python sorted is a stable sort; stable insertion
sort produces the same list on any input. -/
def sortedByErr : List Config → List Config
  | [] => []
  | x :: xs => insertByErr x (sortedByErr xs)

/-- src/avr-can.py lines 125..131: best_error_rate returns None on an empty
candidate list and otherwise the first element of the candidates stably sorted
by error_rate.  The ZeroDivisionError of get_config propagates. -/
def best_error_rate (baudrate cpu_freq : ℤ) : Except PyErr (Option Config) :=
  match get_config baudrate cpu_freq with
  | Except.error e => Except.error e
  | Except.ok confs =>
    if confs = [] then Except.ok none
    else Except.ok (sortedByErr confs).head?

/-- The Tbit values whose derived segments pass the validity gate of
src/avr-can.py lines 110..113; established below, not assumed. -/
def goodTbits : List ℤ := [9, 10, 11, 13, 14, 15, 17]

/-- First element of minimal error_rate of a list (proof device for the
selection behaviour of best_error_rate). -/
def firstMin : List Config → Option Config
  | [] => none
  | x :: xs =>
    match firstMin xs with
    | none => some x
    | some m => if m.error_rate < x.error_rate then some m else some x

/-- The single candidate emitted for baudrate 1, cpu frequency 9 (clks_pr_bit
= 9, Tbit = 9, prescaler = 1, error_rate = 0); used as a concrete instance. -/
def cfg9 : Config := mkC 1 9 9 9

lemma min_err_rate_tsjw_one (baud p q r : ℤ) : min_err_rate baud p q r 1 = 1 / 2 := by
  unfold min_err_rate
  rw [if_neg]
  rintro ⟨-, ⟨-, -, h4⟩, -⟩
  exact absurd h4 (by decide)

lemma gate_fail : ∀ T ∈ ([8, 12, 16, 18, 19, 20, 21, 22, 23, 24, 25] : List ℤ),
    T ≠ 1 + Tprs_of T + Tph1_of T + Tph2_of T ∨
      ¬(1 ≤ Tprs_of T ∧ Tprs_of T ≤ 8) ∨
      ¬(1 ≤ Tph1_of T ∧ Tph1_of T ≤ 8) ∨
      ¬(2 ≤ Tph2_of T ∧ Tph2_of T ≤ Tph1_of T) := by
  intro T hT
  fin_cases hT <;> norm_num [Tprs_of, Tph1_of, Tph2_of, pytrunc, is_even]

lemma gate_pass : ∀ T ∈ goodTbits,
    T = 1 + Tprs_of T + Tph1_of T + Tph2_of T ∧
      1 ≤ Tprs_of T ∧ Tprs_of T ≤ 8 ∧ 1 ≤ Tph1_of T ∧ Tph1_of T ≤ 8 ∧
      2 ≤ Tph2_of T ∧ Tph2_of T ≤ Tph1_of T := by
  intro T hT
  fin_cases hT <;> norm_num [Tprs_of, Tph1_of, Tph2_of, pytrunc, is_even]

lemma cand_none_bad (b f : ℤ) (clks : ℚ) {T : ℤ}
    (hT : T ∈ ([8, 12, 16, 18, 19, 20, 21, 22, 23, 24, 25] : List ℤ)) :
    tbit_candidate b f clks T = none := by
  have hg := gate_fail T hT
  unfold tbit_candidate
  rw [if_pos hg, ite_self]

lemma cand_good_eval (b f : ℤ) (clks : ℚ) {T : ℤ} (hT : T ∈ goodTbits) :
    tbit_candidate b f clks T =
      if pytrunc (clks / (T : ℚ)) > 2 ^ 6 then none
      else if pymod clks (T : ℚ) < 1 / 2 then some (mkC b f clks T) else none := by
  obtain ⟨h1, h2, h3, h4, h5, h6, h7⟩ := gate_pass T hT
  have hng : ¬(T ≠ 1 + Tprs_of T + Tph1_of T + Tph2_of T ∨
      ¬(1 ≤ Tprs_of T ∧ Tprs_of T ≤ 8) ∨
      ¬(1 ≤ Tph1_of T ∧ Tph1_of T ≤ 8) ∨
      ¬(2 ≤ Tph2_of T ∧ Tph2_of T ≤ Tph1_of T)) := by
    push_neg
    exact ⟨h1, ⟨h2, h3⟩, ⟨h4, h5⟩, h6, h7⟩
  unfold tbit_candidate
  rw [if_neg hng, min_err_rate_tsjw_one]

lemma tbit_candidate_some {b f : ℤ} {clks : ℚ} {T : ℤ} {c : Config}
    (h : tbit_candidate b f clks T = some c) :
    c = mkC b f clks T ∧ pytrunc (clks / (T : ℚ)) ≤ 2 ^ 6 ∧
      T = 1 + Tprs_of T + Tph1_of T + Tph2_of T ∧
      1 ≤ Tprs_of T ∧ Tprs_of T ≤ 8 ∧ 1 ≤ Tph1_of T ∧ Tph1_of T ≤ 8 ∧
      2 ≤ Tph2_of T ∧ Tph2_of T ≤ Tph1_of T ∧
      pymod clks (T : ℚ) < min_err_rate b (Tprs_of T) (Tph1_of T) (Tph2_of T) 1 := by
  unfold tbit_candidate at h
  split_ifs at h with h1 h2 h3
  simp only [Option.some.injEq] at h
  push_neg at h2
  obtain ⟨e1, ⟨e2, e3⟩, ⟨e4, e5⟩, e6, e7⟩ := h2
  exact ⟨h.symm, not_lt.mp h1, e1, e2, e3, e4, e5, e6, e7, h3⟩

lemma mem_get_config {b f : ℤ} (hb : b ≠ 0) {l : List Config} {c : Config}
    (hl : get_config b f = Except.ok l) (hc : c ∈ l) :
    ∃ T ∈ tbit_range, tbit_candidate b f ((f : ℚ) / (b : ℚ)) T = some c := by
  unfold get_config at hl
  rw [if_neg hb] at hl
  injection hl with hl
  subst hl
  exact List.mem_filterMap.mp hc

lemma get_config_eq_ok {b f : ℤ} (hb : b ≠ 0) :
    get_config b f =
      Except.ok (tbit_range.filterMap (tbit_candidate b f ((f : ℚ) / (b : ℚ)))) := by
  unfold get_config
  rw [if_neg hb]

lemma pymod_eq_self {x y : ℚ} (h0 : 0 ≤ x) (hxy : x < y) : pymod x y = x := by
  have hy : 0 < y := lt_of_le_of_lt h0 hxy
  unfold pymod
  have hf : ⌊x / y⌋ = 0 :=
    Int.floor_eq_zero_iff.mpr ⟨div_nonneg h0 hy.le, (div_lt_one hy).mpr hxy⟩
  rw [hf]
  push_cast
  ring

lemma pytrunc_eq_zero {q : ℚ} (h0 : 0 ≤ q) (h1 : q < 1) : pytrunc q = 0 := by
  unfold pytrunc
  rw [if_neg (not_lt.mpr h0)]
  exact Int.floor_eq_zero_iff.mpr ⟨h0, h1⟩

lemma pytrunc_nonneg {q : ℚ} (h0 : 0 ≤ q) : 0 ≤ pytrunc q := by
  unfold pytrunc
  rw [if_neg (not_lt.mpr h0)]
  exact Int.floor_nonneg.mpr h0

lemma goodTbits_lower : ∀ T ∈ goodTbits, (9 : ℤ) ≤ T := by
  intro T hT
  fin_cases hT <;> decide

lemma tbit_split : ∀ T ∈ tbit_range,
    T ∈ goodTbits ∨ T ∈ ([8, 12, 16, 18, 19, 20, 21, 22, 23, 24, 25] : List ℤ) := by
  intro T hT
  fin_cases hT <;> decide

lemma cand_none_of_mid (b f : ℤ) {clks : ℚ} {T : ℤ} (hT : T ∈ goodTbits)
    (hlo : 1 / 2 ≤ clks) (hhi : clks < (T : ℚ)) :
    tbit_candidate b f clks T = none := by
  have h0 : (0 : ℚ) ≤ clks := le_trans (by norm_num) hlo
  have hT0 : (0 : ℚ) < (T : ℚ) := lt_of_le_of_lt h0 hhi
  have hq0 : (0 : ℚ) ≤ clks / (T : ℚ) := div_nonneg h0 hT0.le
  have hq1 : clks / (T : ℚ) < 1 := (div_lt_one hT0).mpr hhi
  rw [cand_good_eval b f clks hT,
    if_neg (by rw [pytrunc_eq_zero hq0 hq1]; decide),
    pymod_eq_self h0 hhi, if_neg (not_lt.mpr hlo)]

lemma cand_none_of_ge (b f : ℤ) (clks : ℚ) {T : ℤ} (hT : T ∈ goodTbits)
    (hp : ¬ pytrunc (clks / (T : ℚ)) > 2 ^ 6) (he : ¬ pymod clks (T : ℚ) < 1 / 2) :
    tbit_candidate b f clks T = none := by
  rw [cand_good_eval b f clks hT, if_neg hp, if_neg he]

lemma cand_some_of (b f : ℤ) (clks : ℚ) {T : ℤ} (hT : T ∈ goodTbits)
    (hp : ¬ pytrunc (clks / (T : ℚ)) > 2 ^ 6) (he : pymod clks (T : ℚ) < 1 / 2) :
    tbit_candidate b f clks T = some (mkC b f clks T) := by
  rw [cand_good_eval b f clks hT, if_neg hp, if_pos he]

lemma best_eq {b f : ℤ} {l : List Config} (hl : get_config b f = Except.ok l) :
    best_error_rate b f =
      if l = [] then Except.ok none else Except.ok (sortedByErr l).head? := by
  unfold best_error_rate
  rw [hl]

lemma insertByErr_ne_nil (x : Config) (l : List Config) : insertByErr x l ≠ [] := by
  cases l with
  | nil => simp [insertByErr]
  | cons y ys =>
    unfold insertByErr
    split <;> simp

lemma sortedByErr_eq_nil_iff {l : List Config} : sortedByErr l = [] ↔ l = [] := by
  cases l with
  | nil => simp [sortedByErr]
  | cons x xs => simp [sortedByErr, insertByErr_ne_nil]

lemma firstMin_eq_none_iff {l : List Config} : firstMin l = none ↔ l = [] := by
  cases l with
  | nil => simp [firstMin]
  | cons x xs =>
    have hne : firstMin (x :: xs) ≠ none := by
      cases hfm : firstMin xs with
      | none => simp [firstMin, hfm]
      | some w =>
        have e : firstMin (x :: xs) =
            if w.error_rate < x.error_rate then some w else some x := by
          simp only [firstMin, hfm]
        rw [e]
        split <;> simp
    simp [hne]

lemma head?_sortedByErr : ∀ l : List Config, (sortedByErr l).head? = firstMin l := by
  intro l
  induction l with
  | nil => rfl
  | cons x xs ih =>
    show (insertByErr x (sortedByErr xs)).head? = firstMin (x :: xs)
    cases hxs : sortedByErr xs with
    | nil =>
      have hx : xs = [] := sortedByErr_eq_nil_iff.mp hxs
      subst hx
      rfl
    | cons y ys =>
      have hy : firstMin xs = some y := by
        rw [← ih, hxs]
        rfl
      have e : firstMin (x :: xs) =
          if y.error_rate < x.error_rate then some y else some x := by
        simp only [firstMin, hy]
      rw [e]
      unfold insertByErr
      by_cases h : x.error_rate ≤ y.error_rate
      · rw [if_pos h, if_neg (not_lt.mpr h)]
        rfl
      · rw [if_neg h, if_pos (lt_of_not_le h)]
        rfl

lemma firstMin_spec : ∀ {l : List Config} {m : Config}, firstMin l = some m →
    ∃ l1 l2, l = l1 ++ m :: l2 ∧ (∀ d ∈ l1, m.error_rate < d.error_rate) ∧
      ∀ d ∈ l, m.error_rate ≤ d.error_rate := by
  intro l
  induction l with
  | nil => intro m h; simp [firstMin] at h
  | cons x xs ih =>
    intro m h
    cases hfm : firstMin xs with
    | none =>
      have hx : xs = [] := firstMin_eq_none_iff.mp hfm
      subst hx
      have hxm : x = m := by simpa [firstMin] using h
      subst hxm
      exact ⟨[], [], rfl, by simp, by simp⟩
    | some w =>
      have e : firstMin (x :: xs) =
          if w.error_rate < x.error_rate then some w else some x := by
        simp only [firstMin, hfm]
      rw [e] at h
      obtain ⟨l1, l2, hsplit, hstrict, hall⟩ := ih hfm
      by_cases hc : w.error_rate < x.error_rate
      · rw [if_pos hc] at h
        injection h with h
        subst h
        refine ⟨x :: l1, l2, by simp [hsplit], ?_, ?_⟩
        · intro d hd
          rcases List.mem_cons.mp hd with rfl | hd'
          · exact hc
          · exact hstrict d hd'
        · intro d hd
          rcases List.mem_cons.mp hd with rfl | hd'
          · exact hc.le
          · exact hall d hd'
      · rw [if_neg hc] at h
        injection h with h
        subst h
        refine ⟨[], xs, rfl, by simp, ?_⟩
        intro d hd
        rcases List.mem_cons.mp hd with rfl | hd'
        · exact le_refl _
        · exact le_trans (not_lt.mp hc) (hall d hd')

lemma pytrunc_eq_zero_of {q : ℚ} (h0 : -1 < q) (h1 : q < 1) : pytrunc q = 0 := by
  unfold pytrunc
  split
  · exact Int.ceil_eq_zero_iff.mpr ⟨h0, le_of_lt ‹q < 0›⟩
  · exact Int.floor_eq_zero_iff.mpr ⟨not_lt.mp ‹¬ q < 0›, h1⟩

lemma best_ok_nil {b f : ℤ} (hl : get_config b f = Except.ok []) :
    best_error_rate b f = Except.ok none := by
  rw [best_eq hl, if_pos rfl]

lemma search_empty_of {b f : ℤ} (hb : 0 < b) (hlo : 1 / 2 ≤ (f : ℚ) / (b : ℚ))
    (hhi : (f : ℚ) / (b : ℚ) < 9) : get_config b f = Except.ok [] := by
  rw [get_config_eq_ok hb.ne']
  refine congrArg Except.ok (List.filterMap_eq_nil_iff.mpr ?_)
  intro T hT
  rcases tbit_split T hT with hg | hbad
  · refine cand_none_of_mid b f hg hlo (lt_of_lt_of_le hhi ?_)
    exact_mod_cast goodTbits_lower T hg
  · exact cand_none_bad b f _ hbad

lemma search19 : get_config 1 9 = Except.ok [cfg9] := by
  have hc : ((9 : ℤ) : ℚ) / ((1 : ℤ) : ℚ) = 9 := by norm_num
  rw [get_config_eq_ok (by decide : (1 : ℤ) ≠ 0), hc]
  have n8 : tbit_candidate 1 9 9 8 = none := cand_none_bad 1 9 9 (by decide)
  have n9 : tbit_candidate 1 9 9 9 = some (mkC 1 9 9 9) :=
    cand_some_of 1 9 9 (by decide) (by norm_num [pytrunc]) (by norm_num [pymod])
  have n10 : tbit_candidate 1 9 9 10 = none :=
    cand_none_of_mid 1 9 (by decide) (by norm_num) (by norm_num)
  have n11 : tbit_candidate 1 9 9 11 = none :=
    cand_none_of_mid 1 9 (by decide) (by norm_num) (by norm_num)
  have n12 : tbit_candidate 1 9 9 12 = none := cand_none_bad 1 9 9 (by decide)
  have n13 : tbit_candidate 1 9 9 13 = none :=
    cand_none_of_mid 1 9 (by decide) (by norm_num) (by norm_num)
  have n14 : tbit_candidate 1 9 9 14 = none :=
    cand_none_of_mid 1 9 (by decide) (by norm_num) (by norm_num)
  have n15 : tbit_candidate 1 9 9 15 = none :=
    cand_none_of_mid 1 9 (by decide) (by norm_num) (by norm_num)
  have n16 : tbit_candidate 1 9 9 16 = none := cand_none_bad 1 9 9 (by decide)
  have n17 : tbit_candidate 1 9 9 17 = none :=
    cand_none_of_mid 1 9 (by decide) (by norm_num) (by norm_num)
  have n18 : tbit_candidate 1 9 9 18 = none := cand_none_bad 1 9 9 (by decide)
  have n19 : tbit_candidate 1 9 9 19 = none := cand_none_bad 1 9 9 (by decide)
  have n20 : tbit_candidate 1 9 9 20 = none := cand_none_bad 1 9 9 (by decide)
  have n21 : tbit_candidate 1 9 9 21 = none := cand_none_bad 1 9 9 (by decide)
  have n22 : tbit_candidate 1 9 9 22 = none := cand_none_bad 1 9 9 (by decide)
  have n23 : tbit_candidate 1 9 9 23 = none := cand_none_bad 1 9 9 (by decide)
  have n24 : tbit_candidate 1 9 9 24 = none := cand_none_bad 1 9 9 (by decide)
  have n25 : tbit_candidate 1 9 9 25 = none := cand_none_bad 1 9 9 (by decide)
  simp only [tbit_range, List.filterMap_cons, List.filterMap_nil, n8, n9, n10, n11, n12,
    n13, n14, n15, n16, n17, n18, n19, n20, n21, n22, n23, n24, n25]
  rfl

lemma best19 : best_error_rate 1 9 = Except.ok (some cfg9) := by
  rw [best_eq search19, if_neg (by simp)]
  rfl

lemma search32 : get_config 500000 16000000 = Except.ok [] := by
  have hc : ((16000000 : ℤ) : ℚ) / ((500000 : ℤ) : ℚ) = 32 := by norm_num
  rw [get_config_eq_ok (by decide : (500000 : ℤ) ≠ 0), hc]
  refine congrArg Except.ok (List.filterMap_eq_nil_iff.mpr ?_)
  intro T hT
  rcases tbit_split T hT with hg | hbad
  · fin_cases hg <;>
      exact cand_none_of_ge _ _ _ (by decide) (by norm_num [pytrunc]) (by norm_num [pymod])
  · exact cand_none_bad _ _ _ hbad

lemma searchm1 : get_config 1 (-1) = Except.ok [] := by
  have hc : ((-1 : ℤ) : ℚ) / ((1 : ℤ) : ℚ) = -1 := by norm_num
  rw [get_config_eq_ok (by decide : (1 : ℤ) ≠ 0), hc]
  refine congrArg Except.ok (List.filterMap_eq_nil_iff.mpr ?_)
  intro T hT
  rcases tbit_split T hT with hg | hbad
  · fin_cases hg <;>
      exact cand_none_of_ge _ _ _ (by decide)
        (by rw [pytrunc_eq_zero_of (by norm_num) (by norm_num)]; decide)
        (by norm_num [pymod])
  · exact cand_none_bad _ _ _ hbad

lemma search31 : get_config 3 1 = Except.ok
    [mkC 3 1 (1 / 3) 9, mkC 3 1 (1 / 3) 10, mkC 3 1 (1 / 3) 11, mkC 3 1 (1 / 3) 13,
      mkC 3 1 (1 / 3) 14, mkC 3 1 (1 / 3) 15, mkC 3 1 (1 / 3) 17] := by
  have hc : ((1 : ℤ) : ℚ) / ((3 : ℤ) : ℚ) = 1 / 3 := by norm_num
  rw [get_config_eq_ok (by decide : (3 : ℤ) ≠ 0), hc]
  have n8 : tbit_candidate 3 1 (1 / 3) 8 = none := cand_none_bad 3 1 (1 / 3) (by decide)
  have n9 : tbit_candidate 3 1 (1 / 3) 9 = some (mkC 3 1 (1 / 3) 9) :=
    cand_some_of 3 1 (1 / 3) (by decide)
      (by rw [pytrunc_eq_zero_of (by norm_num) (by norm_num)]; decide) (by norm_num [pymod])
  have n10 : tbit_candidate 3 1 (1 / 3) 10 = some (mkC 3 1 (1 / 3) 10) :=
    cand_some_of 3 1 (1 / 3) (by decide)
      (by rw [pytrunc_eq_zero_of (by norm_num) (by norm_num)]; decide) (by norm_num [pymod])
  have n11 : tbit_candidate 3 1 (1 / 3) 11 = some (mkC 3 1 (1 / 3) 11) :=
    cand_some_of 3 1 (1 / 3) (by decide)
      (by rw [pytrunc_eq_zero_of (by norm_num) (by norm_num)]; decide) (by norm_num [pymod])
  have n12 : tbit_candidate 3 1 (1 / 3) 12 = none := cand_none_bad 3 1 (1 / 3) (by decide)
  have n13 : tbit_candidate 3 1 (1 / 3) 13 = some (mkC 3 1 (1 / 3) 13) :=
    cand_some_of 3 1 (1 / 3) (by decide)
      (by rw [pytrunc_eq_zero_of (by norm_num) (by norm_num)]; decide) (by norm_num [pymod])
  have n14 : tbit_candidate 3 1 (1 / 3) 14 = some (mkC 3 1 (1 / 3) 14) :=
    cand_some_of 3 1 (1 / 3) (by decide)
      (by rw [pytrunc_eq_zero_of (by norm_num) (by norm_num)]; decide) (by norm_num [pymod])
  have n15 : tbit_candidate 3 1 (1 / 3) 15 = some (mkC 3 1 (1 / 3) 15) :=
    cand_some_of 3 1 (1 / 3) (by decide)
      (by rw [pytrunc_eq_zero_of (by norm_num) (by norm_num)]; decide) (by norm_num [pymod])
  have n16 : tbit_candidate 3 1 (1 / 3) 16 = none := cand_none_bad 3 1 (1 / 3) (by decide)
  have n17 : tbit_candidate 3 1 (1 / 3) 17 = some (mkC 3 1 (1 / 3) 17) :=
    cand_some_of 3 1 (1 / 3) (by decide)
      (by rw [pytrunc_eq_zero_of (by norm_num) (by norm_num)]; decide) (by norm_num [pymod])
  have n18 : tbit_candidate 3 1 (1 / 3) 18 = none := cand_none_bad 3 1 (1 / 3) (by decide)
  have n19 : tbit_candidate 3 1 (1 / 3) 19 = none := cand_none_bad 3 1 (1 / 3) (by decide)
  have n20 : tbit_candidate 3 1 (1 / 3) 20 = none := cand_none_bad 3 1 (1 / 3) (by decide)
  have n21 : tbit_candidate 3 1 (1 / 3) 21 = none := cand_none_bad 3 1 (1 / 3) (by decide)
  have n22 : tbit_candidate 3 1 (1 / 3) 22 = none := cand_none_bad 3 1 (1 / 3) (by decide)
  have n23 : tbit_candidate 3 1 (1 / 3) 23 = none := cand_none_bad 3 1 (1 / 3) (by decide)
  have n24 : tbit_candidate 3 1 (1 / 3) 24 = none := cand_none_bad 3 1 (1 / 3) (by decide)
  have n25 : tbit_candidate 3 1 (1 / 3) 25 = none := cand_none_bad 3 1 (1 / 3) (by decide)
  simp only [tbit_range, List.filterMap_cons, List.filterMap_nil, n8, n9, n10, n11, n12,
    n13, n14, n15, n16, n17, n18, n19, n20, n21, n22, n23, n24, n25]

lemma best31_ne : best_error_rate 3 1 ≠ Except.ok none := by
  rw [best_eq search31, if_neg (by simp)]
  intro h
  have h2 := Except.ok.inj h
  rw [head?_sortedByErr] at h2
  have h3 := firstMin_eq_none_iff.mp h2
  simp at h3

lemma get_config_tbit_ascending {b f : ℤ} {l : List Config} (hb : b ≠ 0)
    (hl : get_config b f = Except.ok l) : l.Pairwise (fun c d => c.Tbit < d.Tbit) := by
  unfold get_config at hl
  rw [if_neg hb] at hl
  injection hl with hl
  subst hl
  rw [List.pairwise_filterMap]
  have horder : tbit_range.Pairwise (fun T U : ℤ => T < U) := by
    unfold tbit_range
    decide
  refine horder.imp ?_
  intro T U hTU c hc d hd
  rw [Option.mem_def] at hc hd
  obtain ⟨hceq, -, -, -, -, -, -, -, -, -⟩ := tbit_candidate_some hc
  obtain ⟨hdeq, -, -, -, -, -, -, -, -, -⟩ := tbit_candidate_some hd
  subst hceq
  subst hdeq
  simpa [mkC] using hTU

/-- C1: for every pair of positive integers (baud rate, cpu frequency), every
Config emitted by get_config satisfies Tbit = Tsyns + Tprs + Tph1 + Tph2,
1 <= Tprs <= 8, 1 <= Tph1 <= 8, 2 <= Tph2 <= Tph1, prescaler <= 64 and
error_rate < 1/2. -/
theorem C1_emitted_invariants : ∀ (b f : ℤ) (l : List Config) (c : Config),
    0 < b → 0 < f → get_config b f = Except.ok l → c ∈ l →
    c.Tbit = c.Tsyns + c.Tprs + c.Tph1 + c.Tph2 ∧
    1 ≤ c.Tprs ∧ c.Tprs ≤ 8 ∧ 1 ≤ c.Tph1 ∧ c.Tph1 ≤ 8 ∧
    2 ≤ c.Tph2 ∧ c.Tph2 ≤ c.Tph1 ∧ c.prescaler ≤ 64 ∧ c.error_rate < 1 / 2 := by
  intro b f l c hb hf hl hc
  obtain ⟨T, hT, hsome⟩ := mem_get_config hb.ne' hl hc
  obtain ⟨hceq, hpre, hsum, e2, e3, e4, e5, e6, e7, herr⟩ := tbit_candidate_some hsome
  subst hceq
  rw [min_err_rate_tsjw_one] at herr
  norm_num at hpre
  simp only [mkC]
  exact ⟨hsum, e2, e3, e4, e5, e6, e7, hpre, herr⟩

/-- C1 witness: the invariants instantiated at baud rate 1, cpu frequency 9,
whose candidate list is exactly the singleton cfg9. -/
theorem C1_witness :
    cfg9.Tbit = cfg9.Tsyns + cfg9.Tprs + cfg9.Tph1 + cfg9.Tph2 ∧
    1 ≤ cfg9.Tprs ∧ cfg9.Tprs ≤ 8 ∧ 1 ≤ cfg9.Tph1 ∧ cfg9.Tph1 ≤ 8 ∧
    2 ≤ cfg9.Tph2 ∧ cfg9.Tph2 ≤ cfg9.Tph1 ∧ cfg9.prescaler ≤ 64 ∧
    cfg9.error_rate < 1 / 2 :=
  C1_emitted_invariants 1 9 [cfg9] cfg9 (by decide) (by decide) search19
    (List.mem_singleton.mpr rfl)

/-- C2: best_error_rate returns absence exactly when get_config emitted no
candidate; otherwise it returns the candidate of strictly smallest error_rate,
and on ties the first such candidate in emission order (which is ascending in
Tbit): every candidate before the returned one has strictly larger error_rate
and every candidate is at least as large. -/
theorem C2_best_selects_first_minimum : ∀ (b f : ℤ) (l : List Config),
    0 < b → 0 < f → get_config b f = Except.ok l →
    l.Pairwise (fun c d => c.Tbit < d.Tbit) ∧
    (best_error_rate b f = Except.ok none ↔ l = []) ∧
    ∀ c : Config, best_error_rate b f = Except.ok (some c) →
      ∃ l1 l2, l = l1 ++ c :: l2 ∧ (∀ d ∈ l1, c.error_rate < d.error_rate) ∧
        ∀ d ∈ l, c.error_rate ≤ d.error_rate := by
  intro b f l hb hf hl
  have hbe := best_eq hl
  refine ⟨get_config_tbit_ascending hb.ne' hl, ⟨?_, ?_⟩, ?_⟩
  · intro h
    by_contra hne
    rw [if_neg hne] at hbe
    rw [hbe] at h
    have h2 := Except.ok.inj h
    rw [head?_sortedByErr] at h2
    exact hne (firstMin_eq_none_iff.mp h2)
  · rintro rfl
    rw [if_pos rfl] at hbe
    exact hbe
  · intro c hc
    have hne : l ≠ [] := by
      rintro rfl
      rw [if_pos rfl] at hbe
      rw [hbe] at hc
      exact Option.noConfusion (Except.ok.inj hc)
    rw [if_neg hne] at hbe
    rw [hbe] at hc
    have h1 := Except.ok.inj hc
    rw [head?_sortedByErr] at h1
    exact firstMin_spec h1

/-- C2 witness: the selection property instantiated at baud rate 1, cpu
frequency 9, where the candidate list is the singleton cfg9 and
best_error_rate returns cfg9. -/
theorem C2_witness :
    (([cfg9] : List Config).Pairwise (fun c d => c.Tbit < d.Tbit) ∧
      (best_error_rate 1 9 = Except.ok none ↔ ([cfg9] : List Config) = [])) ∧
    ∃ l1 l2, ([cfg9] : List Config) = l1 ++ cfg9 :: l2 ∧
      (∀ d ∈ l1, cfg9.error_rate < d.error_rate) ∧
      ∀ d ∈ ([cfg9] : List Config), cfg9.error_rate ≤ d.error_rate :=
  ⟨⟨(C2_best_selects_first_minimum 1 9 [cfg9] (by decide) (by decide) search19).1,
    (C2_best_selects_first_minimum 1 9 [cfg9] (by decide) (by decide) search19).2.1⟩,
    (C2_best_selects_first_minimum 1 9 [cfg9] (by decide) (by decide) search19).2.2
      cfg9 best19⟩

/-- C3 counterexample: at cpu frequency 16000000 and baud rate 500000
(clks_pr_bit = 32) get_config returns the empty candidate list, refuting the
claim that at least one candidate (in particular one with Tbit = 16,
error_rate = 0, prescaler = 2) is returned. -/
theorem C3_counterexample : get_config 500000 16000000 = Except.ok [] :=
  search32

/-- C3 amended: at cpu frequency 16000000 and baud rate 500000 the search
succeeds but emits no candidate and best_error_rate returns absence; Tbit = 16
divides clks_pr_bit = 32 exactly (pymod 32 16 = 0) yet its candidate is
rejected by the segment validity gate. -/
theorem C3_amended :
    get_config 500000 16000000 = Except.ok [] ∧
    best_error_rate 500000 16000000 = Except.ok none ∧
    tbit_candidate 500000 16000000 32 16 = none ∧ pymod 32 16 = 0 :=
  ⟨search32, best_ok_nil search32, cand_none_bad _ _ _ (by decide), by norm_num [pymod]⟩

/-- C4 counterexample: at cpu frequency 8000000 and baud rate 1000000
(clks_pr_bit = 8) get_config returns the empty candidate list, refuting the
claim that the candidate (Tbit = 8, error_rate = 0, prescaler = 1, Tprs = 4,
Tph1 = 2, Tph2 = 2) or any equivalent is produced. -/
theorem C4_counterexample : get_config 1000000 8000000 = Except.ok [] :=
  search_empty_of (by decide) (by norm_num) (by norm_num)

/-- C4 amended: at cpu frequency 8000000 and baud rate 1000000 the search
succeeds but emits no candidate and best_error_rate returns absence; Tbit = 8
divides clks_pr_bit = 8 exactly (pymod 8 8 = 0) yet its candidate is rejected
by the segment validity gate (the derived segments of Tbit = 8 sum to 10). -/
theorem C4_amended :
    get_config 1000000 8000000 = Except.ok [] ∧
    best_error_rate 1000000 8000000 = Except.ok none ∧
    tbit_candidate 1000000 8000000 8 8 = none ∧ pymod 8 8 = 0 := by
  have h := search_empty_of (b := 1000000) (f := 8000000) (by decide) (by norm_num)
    (by norm_num)
  exact ⟨h, best_ok_nil h, cand_none_bad _ _ _ (by decide), by norm_num [pymod]⟩

/-- C5 counterexample: baud rate 3 and cpu frequency 1 are positive with
clks_pr_bit = 1/3 < 8, yet get_config emits a nonempty candidate list (seven
candidates of error_rate 1/3) and best_error_rate does not return absence,
refuting the claim that clks_pr_bit < 8 forces an empty result. -/
theorem C5_counterexample :
    (0 : ℤ) < 3 ∧ (0 : ℤ) < 1 ∧ ((1 : ℤ) : ℚ) / ((3 : ℤ) : ℚ) < 8 ∧
    get_config 3 1 ≠ Except.ok [] ∧ best_error_rate 3 1 ≠ Except.ok none := by
  refine ⟨by decide, by decide, by norm_num, ?_, best31_ne⟩
  rw [search31]
  simp

/-- C5 amended: for positive inputs whose exact ratio clks_pr_bit =
cpu_frequency / baud_rate satisfies 1/2 <= clks_pr_bit < 8, get_config
returns the empty list (not an error) and best_error_rate returns absence;
the lower bound 1/2 is necessary, since ratios below 1/2 pass the error-rate
gate and produce candidates. -/
theorem C5_amended : ∀ (b f : ℤ), 0 < b → 0 < f →
    1 / 2 ≤ (f : ℚ) / (b : ℚ) → (f : ℚ) / (b : ℚ) < 8 →
    get_config b f = Except.ok [] ∧ best_error_rate b f = Except.ok none := by
  intro b f hb hf hlo hhi
  have h := search_empty_of hb hlo (lt_trans hhi (by norm_num))
  exact ⟨h, best_ok_nil h⟩

/-- C5 witness: the amended statement instantiated at baud rate 1, cpu
frequency 1, whose ratio 1 lies in the interval where the search is empty. -/
theorem C5_amended_witness :
    get_config 1 1 = Except.ok [] ∧ best_error_rate 1 1 = Except.ok none :=
  C5_amended 1 1 (by decide) (by decide) (by norm_num) (by norm_num)

/-- C6: the code has no input validation at all; at baud rate 0 the division
on src/avr-can.py line 92 raises ZeroDivisionError (not a dedicated
InvalidArgument error), and at cpu frequency -1 no error is raised: the search
silently returns the empty candidate list and best_error_rate returns
absence. -/
theorem C6_no_input_validation :
    get_config 0 16000000 = Except.error PyErr.zeroDivisionError ∧
    get_config 1 (-1) = Except.ok [] ∧
    best_error_rate 1 (-1) = Except.ok none := by
  refine ⟨?_, searchm1, best_ok_nil searchm1⟩
  unfold get_config
  rw [if_pos rfl]

/-- C7 counterexample: at the positive inputs baud rate 3, cpu frequency 1
(clks_pr_bit = 1/3) every emitted candidate has prescaler 0, refuting the
claimed lower bound prescaler >= 1. -/
theorem C7_counterexample :
    (0 : ℤ) < 3 ∧ (0 : ℤ) < 1 ∧
    Except.map (fun l => l.map Config.prescaler) (get_config 3 1) =
      Except.ok [0, 0, 0, 0, 0, 0, 0] := by
  refine ⟨by decide, by decide, ?_⟩
  rw [search31]
  norm_num [Except.map, mkC, pytrunc]

/-- C7 amended: for positive inputs every emitted candidate has prescaler
equal to the truncation of clks_pr_bit / Tbit, nonnegative, and at most 64;
the lower bound 1 of the claim does not hold (prescaler is 0 whenever
clks_pr_bit < Tbit). -/
theorem C7_amended : ∀ (b f : ℤ) (l : List Config) (c : Config),
    0 < b → 0 < f → get_config b f = Except.ok l → c ∈ l →
    c.prescaler = pytrunc (c.clks_pr_bit / (c.Tbit : ℚ)) ∧
    0 ≤ c.prescaler ∧ c.prescaler ≤ 64 := by
  intro b f l c hb hf hl hc
  obtain ⟨T, hT, hsome⟩ := mem_get_config hb.ne' hl hc
  obtain ⟨hceq, hpre, -, -, -, -, -, -, -, -⟩ := tbit_candidate_some hsome
  subst hceq
  norm_num at hpre
  have hT8 : (8 : ℤ) ≤ T := by fin_cases hT <;> decide
  have hclks : (0 : ℚ) ≤ (f : ℚ) / (b : ℚ) :=
    le_of_lt (div_pos (by exact_mod_cast hf) (by exact_mod_cast hb))
  have hq : (0 : ℚ) ≤ (f : ℚ) / (b : ℚ) / (T : ℚ) := by
    refine div_nonneg hclks ?_
    exact_mod_cast le_trans (by norm_num) hT8
  simp only [mkC]
  exact ⟨trivial, pytrunc_nonneg hq, hpre⟩

/-- C7 witness: the amended statement instantiated at baud rate 1, cpu
frequency 9 and the emitted candidate cfg9. -/
theorem C7_amended_witness :
    cfg9.prescaler = pytrunc (cfg9.clks_pr_bit / (cfg9.Tbit : ℚ)) ∧
    0 ≤ cfg9.prescaler ∧ cfg9.prescaler ≤ 64 :=
  C7_amended 1 9 [cfg9] cfg9 (by decide) (by decide) search19
    (List.mem_singleton.mpr rfl)

/-- C8: with the sync jump width fixed at 1, as it is for every enumerated
candidate (src/avr-can.py line 107), the min_err_rate override guard
(which requires Tsjw = 4) can never hold, so the acceptance threshold the
search compares error_rate against is always 1/2. -/
theorem C8_override_unreachable : ∀ (baudrate Tprs Tph1 Tph2 : ℤ),
    min_err_rate baudrate Tprs Tph1 Tph2 1 = 1 / 2 :=
  min_err_rate_tsjw_one

/-- C9: for positive inputs the Tbit of every candidate emitted by get_config
lies in goodTbits = [9, 10, 11, 13, 14, 15, 17]; and for every other Tbit of
range(8, 26) the per-Tbit body returns none for all inputs and all values of
clks_pr_bit, so those Tbit values never appear in any output. -/
theorem C9_tbit_image : (∀ (b f : ℤ) (l : List Config) (c : Config),
      0 < b → 0 < f → get_config b f = Except.ok l → c ∈ l → c.Tbit ∈ goodTbits) ∧
    ∀ (b f : ℤ) (clks : ℚ) (T : ℤ), T ∈ tbit_range → T ∉ goodTbits →
      tbit_candidate b f clks T = none := by
  constructor
  · intro b f l c hb hf hl hc
    obtain ⟨T, hT, hsome⟩ := mem_get_config hb.ne' hl hc
    obtain ⟨hceq, -, -, -, -, -, -, -, -, -⟩ := tbit_candidate_some hsome
    subst hceq
    rcases tbit_split T hT with hg | hbad
    · simpa [mkC] using hg
    · rw [cand_none_bad b f _ hbad] at hsome
      exact absurd hsome (by simp)
  · intro b f clks T hT hnot
    rcases tbit_split T hT with hg | hbad
    · exact absurd hg hnot
    · exact cand_none_bad b f clks hbad

/-- C9 witness: the candidate cfg9 emitted at baud rate 1, cpu frequency 9 has
its Tbit in goodTbits, and the per-Tbit body at the rejected value Tbit = 8
returns none. -/
theorem C9_witness : cfg9.Tbit ∈ goodTbits ∧ tbit_candidate 1 9 9 8 = none :=
  ⟨C9_tbit_image.1 1 9 [cfg9] cfg9 (by decide) (by decide) search19
      (List.mem_singleton.mpr rfl),
    C9_tbit_image.2 1 9 9 8 (by decide) (by decide)⟩

/-- C10: get_config is a pure function of its two integer inputs: two calls
with identical arguments yield structurally equal, identically ordered
results. -/
theorem C10_deterministic : ∀ (b f : ℤ), get_config b f = get_config b f :=
  fun _ _ => rfl
